import Mathlib

/-!
Shallow embedding of the finnovate_sazi frontend core: the replay timeline
and playback controller (frontend/app/replay/page.tsx), the session trade
store (store/tradeStore.ts), the order-book wall/anomaly analyzer
(OrderBookPanel), the feature scorer and the bubble lifecycle manager
(WhaleBubbleSpace).

Modelling conventions:
* JS numbers are embedded as exact rationals (ℚ); the transcendental parts of
  the code (Math.log, Math.sqrt) are embedded over ℝ.  Wire strings for
  prices/quantities are modelled as already parsed numbers; ISO timestamp
  strings are modelled as their parsed millisecond value.
* JS `Map` objects are embedded as insertion-ordered association lists with
  the same set/get semantics; JS `Set` objects as finite sets.
* Rendering-only data (three.js meshes, materials, random jitter and drift
  velocities) is outside the claims and is not part of the entity record; the
  semantic fields (id, price, axis position, whale flag, ring/trail presence,
  creation time, value, aggression) are kept.
-/

namespace Finnovate

/-- Pattern match entry carried by a whale alert (lib/types.ts). -/
structure PatternMatch where
  trade_id : Int
  timestamp : ℚ
  price : ℚ
  value : ℚ
  is_buy : Bool
  similarity_score : ℚ
deriving DecidableEq

/-- Whale alert event payload (lib/types.ts `WhaleAlert`). -/
structure WhaleAlert where
  trade_id : Int
  timestamp : ℚ
  price : ℚ
  quantity : ℚ
  trade_value : ℚ
  is_buy : Bool
  whale_score : ℚ
  similar_patterns : List PatternMatch
  bull_bear_sentiment : ℚ
  severity_score : Option ℚ
  price_move_pct : Option ℚ
  label : Option String
  action_label : Option String
deriving DecidableEq

/-- Raw executed trade payload (lib/types.ts `ExecutedTrade`). -/
structure ExecutedTrade where
  trade_id : Int
  timestamp : ℚ
  price : ℚ
  quantity : ℚ
  trade_value : ℚ
  is_buy : Bool
deriving DecidableEq

/-- Bull/bear aggregate metrics (lib/types.ts `BullBearMetrics`). -/
structure BullBearMetrics where
  net_buy_volume : ℚ
  net_sell_volume : ℚ
  bull_power : ℚ
  momentum : ℚ
  timestamp : ℚ
deriving DecidableEq

/-- Hype/reality metrics (lib/types.ts `HypeRealityMetrics`). -/
structure HypeRealityMetrics where
  social_hype_score : ℚ
  whale_activity_score : ℚ
  price_change_percent : ℚ
  whale_value : ℚ
  insight : String
  timestamp : ℚ
deriving DecidableEq

/-- Feature block of an institutional execution event (lib/types.ts). -/
structure InstitutionalFeatures where
  size_score : ℚ
  slicing_score : ℚ
  absorption_score : ℚ
  aggression_score : ℚ
  impact_anomaly_score : ℚ
  flow_ratio_10s : ℚ
  flow_ratio_60s : ℚ
  range_10s : ℚ
  vol_10s : ℚ
deriving DecidableEq

/-- Institutional execution event (lib/types.ts `InstitutionalExecutionEvent`). -/
structure InstitutionalExecutionEvent where
  symbol : String
  side : Bool
  label : String
  score : ℚ
  confidence : ℚ
  features : InstitutionalFeatures
  ts : ℚ
deriving DecidableEq

/-- Order-book snapshot (lib/types.ts `OrderBookSnapshot`).  The wire carries
price/quantity string pairs; levels are modelled as parsed (price, qty)
rationals. -/
structure OrderBookSnapshot where
  last_update_id : Option Int
  bids : List (ℚ × ℚ)
  asks : List (ℚ × ℚ)
  timestamp : Option ℚ
deriving DecidableEq

/-- A point of the price history kept by the store. -/
structure PricePoint where
  timestamp : ℚ
  price : ℚ
  volume : ℚ
deriving DecidableEq

/-- The zustand session store (store/tradeStore.ts `TradeStore`): live-mode
fields and replay-mode fields side by side. -/
structure TradeStore where
  whaleAlerts : List WhaleAlert
  bullBearMetrics : Option BullBearMetrics
  hypeRealityMetrics : Option HypeRealityMetrics
  institutionalEvents : List InstitutionalExecutionEvent
  orderBook : Option OrderBookSnapshot
  executedTrades : List ExecutedTrade
  replayWhaleAlerts : List WhaleAlert
  replayInstitutionalEvents : List InstitutionalExecutionEvent
  replayOrderBook : Option OrderBookSnapshot
  isConnected : Bool
  priceHistory : List PricePoint
  selectedWhaleTradeId : Option Int
deriving DecidableEq

/-- The initial store state (tradeStore.ts, the literal passed to `create`). -/
def TradeStore.initial : TradeStore where
  whaleAlerts := []
  bullBearMetrics := none
  hypeRealityMetrics := none
  institutionalEvents := []
  orderBook := none
  executedTrades := []
  replayWhaleAlerts := []
  replayInstitutionalEvents := []
  replayOrderBook := none
  isConnected := false
  priceHistory := []
  selectedWhaleTradeId := none

/-- tradeStore.ts `addReplayWhaleAlert`: prepend, keep the first 100. -/
def addReplayWhaleAlert (s : TradeStore) (alert : WhaleAlert) : TradeStore :=
  { s with replayWhaleAlerts := (alert :: s.replayWhaleAlerts).take 100 }

/-- tradeStore.ts `updateReplayWhaleAlert`: merge the given update fields into
every alert whose trade_id matches.  The replay page passes exactly
severity_score and price_move_pct, so those two fields are overwritten. -/
def updateReplayWhaleAlert (s : TradeStore) (tradeId : Int)
    (severity pricemove : Option ℚ) : TradeStore :=
  { s with replayWhaleAlerts := s.replayWhaleAlerts.map fun alert =>
      if alert.trade_id = tradeId then
        { alert with severity_score := severity, price_move_pct := pricemove }
      else alert }

/-- tradeStore.ts `addReplayInstitutionalEvent`: prepend, keep the first 50. -/
def addReplayInstitutionalEvent (s : TradeStore)
    (event : InstitutionalExecutionEvent) : TradeStore :=
  { s with replayInstitutionalEvents :=
      (event :: s.replayInstitutionalEvents).take 50 }

/-- tradeStore.ts `updateReplayOrderBook`: replace the replay snapshot. -/
def updateReplayOrderBook (s : TradeStore) (snap : OrderBookSnapshot) :
    TradeStore :=
  { s with replayOrderBook := some snap }

/-- tradeStore.ts `resetReplayState`: zustand `set` with only the three replay
fields, so every other field of the store is merged through unchanged. -/
def resetReplayState (s : TradeStore) : TradeStore :=
  { s with replayWhaleAlerts := []
           replayInstitutionalEvents := []
           replayOrderBook := none }

/-- Claim C10: `resetReplayState` clears only the replay-side fields
(replayWhaleAlerts, replayInstitutionalEvents, replayOrderBook) and leaves
every live-mode field — whaleAlerts, executedTrades, institutionalEvents,
orderBook, priceHistory, selectedWhaleTradeId, isConnected (and the remaining
metrics fields) — unchanged. -/
theorem resetReplayState_frame (s : TradeStore) :
    (resetReplayState s).replayWhaleAlerts = [] ∧
    (resetReplayState s).replayInstitutionalEvents = [] ∧
    (resetReplayState s).replayOrderBook = none ∧
    (resetReplayState s).whaleAlerts = s.whaleAlerts ∧
    (resetReplayState s).executedTrades = s.executedTrades ∧
    (resetReplayState s).institutionalEvents = s.institutionalEvents ∧
    (resetReplayState s).orderBook = s.orderBook ∧
    (resetReplayState s).priceHistory = s.priceHistory ∧
    (resetReplayState s).selectedWhaleTradeId = s.selectedWhaleTradeId ∧
    (resetReplayState s).isConnected = s.isConnected ∧
    (resetReplayState s).bullBearMetrics = s.bullBearMetrics ∧
    (resetReplayState s).hypeRealityMetrics = s.hypeRealityMetrics := by
  refine ⟨rfl, rfl, rfl, rfl, rfl, rfl, rfl, rfl, rfl, rfl, rfl, rfl⟩

/-! ## Replay timeline and playback controller (frontend/app/replay/page.tsx)

The page keeps the sorted event list, the timeline bounds, the cursor index,
the virtual clock and the progress value, and drives the replay-side store
fields through `applyEvent`.  Wall-clock bookkeeping (`playOriginRef`,
`performance.now`) only re-anchors the real-time origin of the virtual clock
and is not part of the derived state. -/

/-- Tagged payload of a replay event, one variant per `type` string the
dispatcher in `applyEvent` matches on; `unknown` is the default branch. -/
inductive ReplayEventData where
  | whale_alert (alert : WhaleAlert)
  | whale_alert_update (trade_id : Int) (severity pricemove : Option ℚ)
  | institutional_execution (event : InstitutionalExecutionEvent)
  | order_book (snap : OrderBookSnapshot)
  | unknown
deriving DecidableEq

/-- Replay event: millisecond timestamp plus payload (replay/page.tsx
`ReplayEvent`). -/
structure ReplayEvent where
  ts : ℚ
  data : ReplayEventData
deriving DecidableEq

/-- State owned by the replay page: the session store plus the page-local
refs/state that the scrub and tick logic mutate. -/
structure ReplayPageState where
  store : TradeStore
  orderBookHistory : List ReplayEvent
  index : ℕ
  virtualTime : ℚ
  progress : ℚ
deriving DecidableEq

/-- replay/page.tsx `pushOrderBookHistory`: append the event when the history
is empty or at least 5000 ms newer than its last entry, then drop entries
older than one hour before the event. -/
def pushOrderBookHistory (prev : List ReplayEvent) (event : ReplayEvent) :
    List ReplayEvent :=
  let next :=
    match prev.getLast? with
    | none => prev ++ [event]
    | some last => if 5000 ≤ event.ts - last.ts then prev ++ [event] else prev
  next.filter fun entry => event.ts - 60 * 60 * 1000 ≤ entry.ts

/-- replay/page.tsx `applyEvent`: dispatch one event into the replay-side
store fields (and the local order-book history for order_book events). -/
def applyEvent (s : ReplayPageState) (event : ReplayEvent) : ReplayPageState :=
  match event.data with
  | .whale_alert alert => { s with store := addReplayWhaleAlert s.store alert }
  | .whale_alert_update tid sev pm =>
      { s with store := updateReplayWhaleAlert s.store tid sev pm }
  | .institutional_execution e =>
      { s with store := addReplayInstitutionalEvent s.store e }
  | .order_book snap =>
      { s with store := updateReplayOrderBook s.store snap
               orderBookHistory := pushOrderBookHistory s.orderBookHistory event }
  | .unknown => s

/-- replay/page.tsx `applyEventsUpTo`: reset the replay store fields and the
order-book history, then apply in order every event from the start of the
timeline whose timestamp is at most `startTs + virtualMs` (the while loop
stops at the first later event), leaving the cursor index behind them. -/
def applyEventsUpTo (events : List ReplayEvent) (startTs virtualMs : ℚ)
    (s : ReplayPageState) : ReplayPageState :=
  let s0 := { s with store := resetReplayState s.store, orderBookHistory := [] }
  let targetTs := startTs + virtualMs
  let toApply := events.takeWhile fun e => e.ts ≤ targetTs
  let s1 := toApply.foldl applyEvent s0
  { s1 with index := toApply.length }

/-- replay/page.tsx `handleScrub`: a no-op when either timeline bound is 0
(JS falsiness of `startTs`/`endTs`); otherwise set the virtual clock and the
progress to the target and replay from scratch up to it. -/
def handleScrub (events : List ReplayEvent) (startTs endTs : ℚ)
    (s : ReplayPageState) (value : ℚ) : ReplayPageState :=
  if endTs = 0 ∨ startTs = 0 then s
  else
    let virtualMs := (endTs - startTs) * value
    applyEventsUpTo events startTs virtualMs
      { s with virtualTime := virtualMs, progress := value }

/-- The page state right after a successful fresh load: pristine store with
the replay fields reset, empty history, cursor and clock at 0. -/
def freshLoadState : ReplayPageState where
  store := resetReplayState TradeStore.initial
  orderBookHistory := []
  index := 0
  virtualTime := 0
  progress := 0

/-- The derived replay state: the three replay-side store fields plus the
page-local order-book history. -/
structure ReplayCore where
  replayWhaleAlerts : List WhaleAlert
  replayInstitutionalEvents : List InstitutionalExecutionEvent
  replayOrderBook : Option OrderBookSnapshot
  orderBookHistory : List ReplayEvent
deriving DecidableEq

/-- Projection of a page state onto its derived replay state. -/
def replayDerived (s : ReplayPageState) : ReplayCore where
  replayWhaleAlerts := s.store.replayWhaleAlerts
  replayInstitutionalEvents := s.store.replayInstitutionalEvents
  replayOrderBook := s.store.replayOrderBook
  orderBookHistory := s.orderBookHistory

lemma replayDerived_applyEvent_congr (event : ReplayEvent)
    (s t : ReplayPageState) (h : replayDerived s = replayDerived t) :
    replayDerived (applyEvent s event) = replayDerived (applyEvent t event) := by
  have h4 : s.orderBookHistory = t.orderBookHistory :=
    congrArg ReplayCore.orderBookHistory h
  have h1 : s.store.replayWhaleAlerts = t.store.replayWhaleAlerts :=
    congrArg ReplayCore.replayWhaleAlerts h
  have h2 : s.store.replayInstitutionalEvents = t.store.replayInstitutionalEvents :=
    congrArg ReplayCore.replayInstitutionalEvents h
  have h3 : s.store.replayOrderBook = t.store.replayOrderBook :=
    congrArg ReplayCore.replayOrderBook h
  cases hd : event.data <;>
    simp [applyEvent, hd, replayDerived, addReplayWhaleAlert,
      updateReplayWhaleAlert, addReplayInstitutionalEvent,
      updateReplayOrderBook, h1, h2, h3, h4]

lemma replayDerived_foldl_congr (l : List ReplayEvent) (s t : ReplayPageState)
    (h : replayDerived s = replayDerived t) :
    replayDerived (l.foldl applyEvent s) = replayDerived (l.foldl applyEvent t) := by
  induction l generalizing s t with
  | nil => simpa using h
  | cons e l ih => exact ih _ _ (replayDerived_applyEvent_congr e s t h)

lemma takeWhile_le_eq_filter (T : ℚ) (l : List ReplayEvent)
    (hs : l.Pairwise fun a b => a.ts ≤ b.ts) :
    (l.takeWhile fun e => e.ts ≤ T) = l.filter fun e => e.ts ≤ T := by
  induction l with
  | nil => rfl
  | cons e l ih =>
    rcases List.pairwise_cons.mp hs with ⟨he, hl⟩
    by_cases hc : e.ts ≤ T
    · simp [List.takeWhile_cons, List.filter_cons, hc, ih hl]
    · have hnone : ∀ x ∈ l, ¬ x.ts ≤ T := fun x hx hxT =>
        hc (le_trans (he x hx) hxT)
      simp only [List.takeWhile_cons, List.filter_cons, decide_eq_true_eq, hc,
        if_neg hc, ite_false]
      exact (List.filter_eq_nil_iff.mpr (by simpa using hnone)).symm

/-- Claim C1: for a loaded replay timeline (events sorted ascending by
timestamp, nonzero timeline bounds), scrubbing to progress p — from any prior
page state, hence after any prior play/pause/tick/scrub history — yields
exactly the derived replay state obtained by starting from the fresh reset
state and applying, in timeline order, precisely those events whose timestamp
minus the timeline start is at most p times the timeline duration.  In
particular scrubbing to 0.5 and then immediately to 0.2 equals loading fresh
and replaying up to 0.2. -/
theorem scrub_replays_from_scratch (events : List ReplayEvent)
    (startTs endTs : ℚ) (s : ReplayPageState) (p : ℚ)
    (hsorted : events.Pairwise fun a b => a.ts ≤ b.ts)
    (hstart : startTs ≠ 0) (hend : endTs ≠ 0) :
    replayDerived (handleScrub events startTs endTs s p) =
      replayDerived ((events.filter fun e =>
        e.ts - startTs ≤ p * (endTs - startTs)).foldl applyEvent freshLoadState) ∧
    replayDerived (handleScrub events startTs endTs
        (handleScrub events startTs endTs s (1/2)) (1/5)) =
      replayDerived ((events.filter fun e =>
        e.ts - startTs ≤ (1/5) * (endTs - startTs)).foldl applyEvent freshLoadState) := by
  have main : ∀ (t : ReplayPageState) (q : ℚ),
      replayDerived (handleScrub events startTs endTs t q) =
        replayDerived ((events.filter fun e =>
          e.ts - startTs ≤ q * (endTs - startTs)).foldl applyEvent freshLoadState) := by
    intro t q
    have hcond : ¬ (endTs = 0 ∨ startTs = 0) := by
      rintro (h | h) <;> [exact hend h; exact hstart h]
    rw [handleScrub, if_neg hcond]
    show replayDerived { (List.foldl applyEvent _ _) with index := _ } = _
    have hindex : ∀ (u : ReplayPageState) (n : ℕ),
        replayDerived { u with index := n } = replayDerived u := fun u n => rfl
    rw [hindex]
    rw [takeWhile_le_eq_filter _ _ hsorted]
    rw [List.filter_congr (fun e _ => ?_)]
    · exact replayDerived_foldl_congr _ _ _ rfl
    · show (decide (e.ts ≤ startTs + (endTs - startTs) * q)) =
        (decide (e.ts - startTs ≤ q * (endTs - startTs)))
      rw [decide_eq_decide]
      rw [sub_le_iff_le_add, mul_comm]
      constructor <;> intro h <;> linarith
  exact ⟨main s p, main _ _⟩

/-- Concrete instantiation of the C1 theorem: a two-event timeline with
bounds 1000 and 2000, scrubbed to one half from the fresh state. -/
theorem scrub_replays_from_scratch_witness :
    (([⟨1000, .unknown⟩, ⟨2000, .unknown⟩] : List ReplayEvent).Pairwise
        fun a b => a.ts ≤ b.ts) ∧
    (1000 : ℚ) ≠ 0 ∧ (2000 : ℚ) ≠ 0 ∧
    (replayDerived (handleScrub [⟨1000, .unknown⟩, ⟨2000, .unknown⟩]
        1000 2000 freshLoadState (1/2)) =
      replayDerived ((([⟨1000, .unknown⟩, ⟨2000, .unknown⟩] : List ReplayEvent).filter
        fun e => e.ts - 1000 ≤ (1/2) * (2000 - 1000)).foldl applyEvent freshLoadState)) := by
  have h1 : (([⟨1000, .unknown⟩, ⟨2000, .unknown⟩] : List ReplayEvent).Pairwise
      fun a b => a.ts ≤ b.ts) := by
    simp [List.pairwise_cons]
    norm_num
  have h2 : (1000 : ℚ) ≠ 0 := by norm_num
  have h3 : (2000 : ℚ) ≠ 0 := by norm_num
  exact ⟨h1, h2, h3,
    (scrub_replays_from_scratch [⟨1000, .unknown⟩, ⟨2000, .unknown⟩]
      1000 2000 freshLoadState (1/2) h1 h2 h3).1⟩

/-! ## Order-book wall/anomaly analyzer (components/OrderBookPanel.tsx)

The panel parses the top `depth` levels per side, computes depth totals and
imbalance, aggregates levels into price buckets (the wall candidates), and
scores each wall candidate against the rolling snapshot history with a
per-bucket z-score clamped into an anomaly intensity. -/

namespace OrderBookPanel

/-- A parsed order-book level (price, quantity). -/
structure Level where
  price : ℚ
  qty : ℚ
deriving DecidableEq

/-- Side selector used by `computeHighlight`. -/
inductive Side where
  | bid
  | ask
deriving DecidableEq

/-- The raw levels of the chosen side of a snapshot. -/
def sideLevels (side : Side) (snap : OrderBookSnapshot) : List (ℚ × ℚ) :=
  match side with
  | .bid => snap.bids
  | .ask => snap.asks

/-- OrderBookPanel.tsx `bids`/`asks` memos: take the top `depth` levels and
parse them into (price, qty) records. -/
def topLevels (levels : List (ℚ × ℚ)) (depth : ℕ) : List Level :=
  (levels.take depth).map fun l => ⟨l.1, l.2⟩

/-- Total displayed quantity of one side (`totalBidQty` / `totalAskQty`). -/
def totalQty (levels : List Level) : ℚ :=
  (levels.map Level.qty).sum

/-- OrderBookPanel.tsx `imbalance`:
(Σ bid qty − Σ ask qty) / max(Σ bid qty + Σ ask qty, 1). -/
def imbalance (bids asks : List Level) : ℚ :=
  (totalQty bids - totalQty asks) / max (totalQty bids + totalQty asks) 1

/-- OrderBookPanel.tsx `midPrice`: 0 unless both best levels are present and
nonzero (JS truthiness of `bestAsk && bestBid`). -/
def panelMidPrice (bids asks : List Level) : ℚ :=
  let bestBid := (bids.head?.map Level.price).getD 0
  let bestAsk := (asks.head?.map Level.price).getD 0
  if bestAsk = 0 ∨ bestBid = 0 then 0 else (bestAsk + bestBid) / 2

/-- OrderBookPanel.tsx `bucketSize`:
midPrice > 0 ? max(round(midPrice*0.001), 10) : 10. -/
def panelBucketSize (midPrice : ℚ) : ℚ :=
  if 0 < midPrice then ((max (round (midPrice * (1 / 1000))) 10 : ℤ) : ℚ) else 10

/-- The bucket key of a price: round(price / bucketSize) * bucketSize. -/
def bucketOf (bucketSize price : ℚ) : ℚ :=
  ((round (price / bucketSize) : ℤ) : ℚ) * bucketSize

/-- Per-bucket aggregation of one side, sorted by quantity descending, top
`keep` kept (`bucketize`; the panel keeps 4, the bubble overlay keeps 2).
The JS `Map` accumulator is an insertion-ordered association list whose `set`
replaces the entry in place when the key is present and appends otherwise. -/
def bucketAdd (bucketSize : ℚ) (m : List (ℚ × ℚ)) (l : Level) : List (ℚ × ℚ) :=
  let bucket := bucketOf bucketSize l.price
  let q := ((m.find? fun p => p.1 = bucket).map Prod.snd).getD 0
  if m.any fun p => p.1 = bucket then
    m.map fun p => if p.1 = bucket then (bucket, q + l.qty) else p
  else m ++ [(bucket, q + l.qty)]

/-- OrderBookPanel.tsx `bucketize`. -/
def bucketize (bucketSize : ℚ) (keep : ℕ) (levels : List Level) : List Level :=
  ((((levels.foldl (bucketAdd bucketSize) []).map fun p => Level.mk p.1 p.2).mergeSort
    fun a b => b.qty ≤ a.qty).take keep)

/-- Accumulated per-bucket statistics (`{ sum, sumSq, count }`). -/
structure BucketStats where
  sum : ℚ
  sumSq : ℚ
  count : ℕ
deriving DecidableEq

/-- `Map.get` on the stats accumulator. -/
def statsFind (m : List (ℚ × BucketStats)) (key : ℚ) : Option BucketStats :=
  (m.find? fun p => p.1 = key).map Prod.snd

/-- `Map.set` on the stats accumulator: replace in place when the key is
present, append otherwise (the maps built here always have distinct keys). -/
def statsSet : List (ℚ × BucketStats) → ℚ → BucketStats → List (ℚ × BucketStats)
  | [], key, v => [(key, v)]
  | p :: rest, key, v =>
      if p.1 = key then (key, v) :: rest else p :: statsSet rest key v

/-- `stats.get(bucket) || { sum: 0, sumSq: 0, count: 0 }`. -/
def statsOf (m : List (ℚ × BucketStats)) (key : ℚ) : BucketStats :=
  (statsFind m key).getD ⟨0, 0, 0⟩

/-- One iteration of the stats accumulation in `computeHighlight`: bucket the
level's price and add its quantity, squared quantity and a count of 1. -/
def addSample (bucketSize : ℚ) (m : List (ℚ × BucketStats)) (l : Level) :
    List (ℚ × BucketStats) :=
  let bucket := bucketOf bucketSize l.price
  let entry := statsOf m bucket
  statsSet m bucket ⟨entry.sum + l.qty, entry.sumSq + l.qty * l.qty, entry.count + 1⟩

/-- The full stats accumulation of `computeHighlight`: for every history
snapshot, fold the top `depth` parsed levels of the chosen side. -/
def collectStats (history : List OrderBookSnapshot) (side : Side) (depth : ℕ)
    (bucketSize : ℚ) : List (ℚ × BucketStats) :=
  history.foldl
    (fun m snap => (topLevels (sideLevels side snap) depth).foldl (addSample bucketSize) m)
    []

/-- The per-wall intensity of `computeHighlight`: 0 when the bucket is absent
or has fewer than 2 samples or zero standard deviation, otherwise the z-score
divided by 3 and clamped to [0, 1]. -/
noncomputable def highlightOf (stats : List (ℚ × BucketStats)) (wall : Level) : ℝ :=
  match statsFind stats wall.price with
  | none => 0
  | some entry =>
      if entry.count < 2 then 0
      else
        let mean : ℝ := (entry.sum : ℝ) / (entry.count : ℝ)
        let variance : ℝ := (entry.sumSq : ℝ) / (entry.count : ℝ) - mean * mean
        let std : ℝ := Real.sqrt (max variance 0)
        if std ≤ 0 then 0
        else max 0 (min (((wall.qty : ℝ) - mean) / std / 3) 1)

/-- OrderBookPanel.tsx `computeHighlight`: the empty map when the history has
fewer than 2 snapshots or the bucket size is degenerate, otherwise each wall
candidate mapped to its intensity. -/
noncomputable def computeHighlight (history : List OrderBookSnapshot) (depth : ℕ)
    (bucketSize : ℚ) (walls : List Level) (side : Side) : List (ℚ × ℝ) :=
  if history.length < 2 ∨ bucketSize ≤ 0 then []
  else
    let stats := collectStats history side depth bucketSize
    walls.map fun wall => (wall.price, highlightOf stats wall)

/-- The render-loop lookup `highlights.get(wall.price) ?? 0`. -/
noncomputable def intensityAt (history : List OrderBookSnapshot) (depth : ℕ)
    (bucketSize : ℚ) (walls : List Level) (side : Side) (price : ℚ) : ℝ :=
  (((computeHighlight history depth bucketSize walls side).find?
    fun p => p.1 = price).map Prod.snd).getD 0

/-- The render-loop flag `isWall = intensity >= 0.35`. -/
noncomputable def confirmedWall (history : List OrderBookSnapshot) (depth : ℕ)
    (bucketSize : ℚ) (walls : List Level) (side : Side) (price : ℚ) : Prop :=
  (7 / 20 : ℝ) ≤ intensityAt history depth bucketSize walls side price

/-- Claim C4: the depth imbalance lies in [−1, 1], and equals 1 only when the
total displayed ask quantity is 0 (quantities on both sides nonnegative, as
order-book quantities are). -/
theorem imbalance_bounds (bids asks : List Level)
    (hb : ∀ l ∈ bids, 0 ≤ l.qty) (ha : ∀ l ∈ asks, 0 ≤ l.qty) :
    -1 ≤ imbalance bids asks ∧ imbalance bids asks ≤ 1 ∧
      (imbalance bids asks = 1 → totalQty asks = 0) := by
  have hB : 0 ≤ totalQty bids :=
    List.sum_nonneg (by
      intro x hx
      rcases List.mem_map.mp hx with ⟨l, hl, rfl⟩
      exact hb l hl)
  have hA : 0 ≤ totalQty asks :=
    List.sum_nonneg (by
      intro x hx
      rcases List.mem_map.mp hx with ⟨l, hl, rfl⟩
      exact ha l hl)
  set B := totalQty bids with hBdef
  set A := totalQty asks with hAdef
  have hD1 : (1 : ℚ) ≤ max (B + A) 1 := le_max_right _ _
  have hD0 : (0 : ℚ) < max (B + A) 1 := lt_of_lt_of_le one_pos hD1
  have hBA : B + A ≤ max (B + A) 1 := le_max_left _ _
  refine ⟨?_, ?_, ?_⟩
  · rw [imbalance, le_div_iff₀ hD0]
    nlinarith [hBA, hB, hA, hD1]
  · rw [imbalance, div_le_one hD0]
    linarith [hBA, hB, hA]
  · intro h
    rw [imbalance, div_eq_one_iff_eq hD0.ne'] at h
    linarith [hBA, hA, h]

/-- Concrete instantiation of the C4 theorem: two bid levels and one ask
level with nonnegative quantities. -/
theorem imbalance_bounds_witness :
    (∀ l ∈ ([⟨101, 2⟩, ⟨100, 3⟩] : List Level), 0 ≤ l.qty) ∧
    (∀ l ∈ ([⟨102, 1⟩] : List Level), 0 ≤ l.qty) ∧
    (-1 ≤ imbalance [⟨101, 2⟩, ⟨100, 3⟩] [⟨102, 1⟩] ∧
      imbalance [⟨101, 2⟩, ⟨100, 3⟩] [⟨102, 1⟩] ≤ 1 ∧
      (imbalance [⟨101, 2⟩, ⟨100, 3⟩] [⟨102, 1⟩] = 1 →
        totalQty [⟨102, 1⟩] = 0)) := by
  have hb : ∀ l ∈ ([⟨101, 2⟩, ⟨100, 3⟩] : List Level), 0 ≤ l.qty := by decide
  have ha : ∀ l ∈ ([⟨102, 1⟩] : List Level), 0 ≤ l.qty := by decide
  exact ⟨hb, ha, imbalance_bounds _ _ hb ha⟩

/-- The flattened stream of parsed levels that the stats accumulation of
`computeHighlight` consumes, in order. -/
def histLevels (history : List OrderBookSnapshot) (side : Side) (depth : ℕ) :
    List Level :=
  history.flatMap fun snap => topLevels (sideLevels side snap) depth

/-- The quantity samples a level list registers in the given bucket. -/
def levelSamples (bucketSize key : ℚ) (L : List Level) : List ℚ :=
  L.filterMap fun l => if bucketOf bucketSize l.price = key then some l.qty else none

/-- Every quantity the retained history registers in the given bucket (top
`depth` levels of the chosen side, per snapshot). -/
def bucketSamples (history : List OrderBookSnapshot) (side : Side) (depth : ℕ)
    (bucketSize key : ℚ) : List ℚ :=
  levelSamples bucketSize key (histLevels history side depth)

/-- The anomaly-intensity formula as worded by the specification (claim C2),
stated over the bucket's registered samples: intensity 0 when the history
holds fewer than 2 snapshots or the bucket has fewer than 2 samples or the
population standard deviation is 0, otherwise clamp(z/3, 0, 1) with
z = (currentQty − mean)/std and mean/std the population statistics of the
samples. -/
noncomputable def specIntensity (history : List OrderBookSnapshot) (side : Side)
    (depth : ℕ) (bucketSize key currentQty : ℚ) : ℝ :=
  let samples := bucketSamples history side depth bucketSize key
  if history.length < 2 ∨ samples.length < 2 then 0
  else
    let n : ℝ := (samples.length : ℝ)
    let mean : ℝ := ((samples.sum : ℚ) : ℝ) / n
    let std : ℝ := Real.sqrt ((samples.map fun q : ℚ => ((q : ℝ) - mean) ^ 2).sum / n)
    if std = 0 then 0
    else max 0 (min (((currentQty : ℝ) - mean) / std / 3) 1)

lemma statsFind_nil (key : ℚ) : statsFind [] key = none := rfl

lemma statsFind_cons (p : ℚ × BucketStats) (rest : List (ℚ × BucketStats)) (key : ℚ) :
    statsFind (p :: rest) key = if p.1 = key then some p.2 else statsFind rest key := by
  by_cases h : p.1 = key <;> simp [statsFind, List.find?_cons, h]

lemma statsFind_statsSet (m : List (ℚ × BucketStats)) (key key2 : ℚ) (v : BucketStats) :
    statsFind (statsSet m key v) key2 =
      if key2 = key then some v else statsFind m key2 := by
  induction m with
  | nil =>
    simp only [statsSet, statsFind_cons, statsFind_nil]
    by_cases h : key2 = key
    · rw [if_pos h.symm, if_pos h]
    · rw [if_neg (Ne.symm h), if_neg h]
  | cons p rest ih =>
    simp only [statsSet]
    by_cases hp : p.1 = key
    · rw [if_pos hp, statsFind_cons, statsFind_cons]
      by_cases h : key2 = key
      · simp [h]
      · have hpk : ¬ p.1 = key2 := by rw [hp]; exact Ne.symm h
        simp [h, Ne.symm h, hpk]
    · rw [if_neg hp, statsFind_cons, statsFind_cons, ih]
      by_cases h : key2 = key
      · have hpk : ¬ p.1 = key2 := by rw [h]; exact hp
        simp [h, hp, hpk]
      · simp [h]

lemma statsOf_statsSet (m : List (ℚ × BucketStats)) (key key2 : ℚ) (v : BucketStats) :
    statsOf (statsSet m key v) key2 = if key2 = key then v else statsOf m key2 := by
  by_cases h : key2 = key <;> simp [statsOf, statsFind_statsSet, h]

lemma statsOf_addSample (bucketSize : ℚ) (m : List (ℚ × BucketStats)) (l : Level)
    (key : ℚ) :
    statsOf (addSample bucketSize m l) key =
      if bucketOf bucketSize l.price = key then
        ⟨(statsOf m key).sum + l.qty, (statsOf m key).sumSq + l.qty * l.qty,
          (statsOf m key).count + 1⟩
      else statsOf m key := by
  by_cases h : bucketOf bucketSize l.price = key
  · simp [addSample, statsOf_statsSet, h]
  · have h2 : ¬ key = bucketOf bucketSize l.price := fun hh => h hh.symm
    simp [addSample, statsOf_statsSet, h, h2]

lemma statsOf_foldl (bucketSize : ℚ) (L : List Level) (m : List (ℚ × BucketStats))
    (key : ℚ) :
    statsOf (L.foldl (addSample bucketSize) m) key =
      ⟨(statsOf m key).sum + (levelSamples bucketSize key L).sum,
        (statsOf m key).sumSq + ((levelSamples bucketSize key L).map fun q => q * q).sum,
        (statsOf m key).count + (levelSamples bucketSize key L).length⟩ := by
  induction L generalizing m with
  | nil => simp [levelSamples]
  | cons l L ih =>
    rw [List.foldl_cons, ih, statsOf_addSample]
    by_cases h : bucketOf bucketSize l.price = key
    · simp only [if_pos h, levelSamples, List.filterMap_cons, h, if_pos, List.sum_cons,
        List.map_cons, List.length_cons, BucketStats.mk.injEq]
      refine ⟨by ring, by ring, by omega⟩
    · simp only [if_neg h, levelSamples, List.filterMap_cons, h, if_neg, ite_false,
        BucketStats.mk.injEq]

lemma foldl_histLevels (history : List OrderBookSnapshot) (side : Side) (depth : ℕ)
    (bucketSize : ℚ) (m : List (ℚ × BucketStats)) :
    history.foldl
      (fun m snap =>
        (topLevels (sideLevels side snap) depth).foldl (addSample bucketSize) m) m
      = (histLevels history side depth).foldl (addSample bucketSize) m := by
  induction history generalizing m with
  | nil => simp [histLevels]
  | cons snap history ih =>
    rw [List.foldl_cons, ih]
    simp [histLevels, List.flatMap_cons, List.foldl_append]

lemma statsOf_collectStats (history : List OrderBookSnapshot) (side : Side)
    (depth : ℕ) (bucketSize key : ℚ) :
    statsOf (collectStats history side depth bucketSize) key =
      ⟨(bucketSamples history side depth bucketSize key).sum,
        ((bucketSamples history side depth bucketSize key).map fun q => q * q).sum,
        (bucketSamples history side depth bucketSize key).length⟩ := by
  rw [collectStats, foldl_histLevels, statsOf_foldl]
  simp [bucketSamples, statsOf, statsFind_nil]

lemma cast_sum_mul_self (l : List ℚ) :
    (((l.map fun q => q * q).sum : ℚ) : ℝ) = (l.map fun q : ℚ => (q : ℝ) ^ 2).sum := by
  induction l with
  | nil => simp
  | cons q l ih =>
    rw [List.map_cons, List.sum_cons, Rat.cast_add, ih, List.map_cons, List.sum_cons]
    push_cast
    ring_nf

lemma sum_sq_dev_expand (l : List ℚ) (c : ℝ) :
    (l.map fun q : ℚ => ((q : ℝ) - c) ^ 2).sum
      = (l.map fun q : ℚ => (q : ℝ) ^ 2).sum - 2 * c * ((l.sum : ℚ) : ℝ)
        + (l.length : ℝ) * c ^ 2 := by
  induction l with
  | nil => simp
  | cons q l ih =>
    rw [List.map_cons, List.sum_cons, ih, List.map_cons, List.sum_cons,
      List.sum_cons, List.length_cons, Rat.cast_add]
    push_cast
    ring

/-- Common normal form of the per-bucket intensity once the stats entry is
known to hold exactly the bucket's sample aggregates. -/
noncomputable def intensityFormula (S : List ℚ) (q : ℚ) : ℝ :=
  if S.length < 2 then 0
  else
    let n : ℝ := (S.length : ℝ)
    let mean : ℝ := ((S.sum : ℚ) : ℝ) / n
    let variance : ℝ := (((S.map fun x => x * x).sum : ℚ) : ℝ) / n - mean * mean
    let std : ℝ := Real.sqrt (max variance 0)
    if std ≤ 0 then 0
    else max 0 (min (((q : ℝ) - mean) / std / 3) 1)

lemma highlightOf_formula (stats : List (ℚ × BucketStats)) (wall : Level)
    (S : List ℚ)
    (hstat : statsOf stats wall.price = ⟨S.sum, (S.map fun x => x * x).sum, S.length⟩) :
    highlightOf stats wall = intensityFormula S wall.qty := by
  cases hfind : statsFind stats wall.price with
  | none =>
    have h0 : statsOf stats wall.price = ⟨0, 0, 0⟩ := by simp [statsOf, hfind]
    rw [hstat] at h0
    have hlen : S.length = 0 := congrArg BucketStats.count h0
    simp [highlightOf, hfind, intensityFormula, hlen]
  | some e =>
    have he : e = ⟨S.sum, (S.map fun x => x * x).sum, S.length⟩ := by
      have h1 : statsOf stats wall.price = e := by simp [statsOf, hfind]
      rw [← h1, hstat]
    rw [highlightOf, hfind, he, intensityFormula]

lemma specIntensity_formula (history : List OrderBookSnapshot) (side : Side)
    (depth : ℕ) (bucketSize key q : ℚ) (hh : ¬ history.length < 2) :
    specIntensity history side depth bucketSize key q =
      intensityFormula (bucketSamples history side depth bucketSize key) q := by
  rw [specIntensity, intensityFormula]
  set S := bucketSamples history side depth bucketSize key with hS
  by_cases hlen : S.length < 2
  · simp [hlen, hh]
  · have hn0 : (0 : ℝ) < (S.length : ℝ) := by
      have : 0 < S.length := by omega
      exact_mod_cast this
    simp only [hh, hlen, false_or, if_neg, ite_false, if_false]
    set n : ℝ := (S.length : ℝ) with hn
    set mean : ℝ := ((S.sum : ℚ) : ℝ) / n with hmean
    have hsum : ((S.sum : ℚ) : ℝ) = mean * n := by
      rw [hmean]
      field_simp
    have hdev : (S.map fun x : ℚ => ((x : ℝ) - mean) ^ 2).sum
        = (((S.map fun x => x * x).sum : ℚ) : ℝ) - n * (mean * mean) := by
      rw [sum_sq_dev_expand, ← cast_sum_mul_self, hsum]
      ring
    have hvar : (S.map fun x : ℚ => ((x : ℝ) - mean) ^ 2).sum / n
        = (((S.map fun x => x * x).sum : ℚ) : ℝ) / n - mean * mean := by
      rw [hdev]
      field_simp
    have hvarnn : 0 ≤ (((S.map fun x => x * x).sum : ℚ) : ℝ) / n - mean * mean := by
      rw [← hvar]
      refine div_nonneg (List.sum_nonneg ?_) hn0.le
      intro x hx
      rcases List.mem_map.mp hx with ⟨q0, _, rfl⟩
      positivity
    have hmax : max ((((S.map fun x => x * x).sum : ℚ) : ℝ) / n - mean * mean) 0
        = (((S.map fun x => x * x).sum : ℚ) : ℝ) / n - mean * mean :=
      max_eq_left hvarnn
    rw [hmax, ← hvar]
    have hstdnn : 0 ≤ Real.sqrt ((S.map fun x : ℚ => ((x : ℝ) - mean) ^ 2).sum / n) :=
      Real.sqrt_nonneg _
    by_cases hstd : Real.sqrt ((S.map fun x : ℚ => ((x : ℝ) - mean) ^ 2).sum / n) = 0
    · simp [hstd]
    · have hnle : ¬ Real.sqrt ((S.map fun x : ℚ => ((x : ℝ) - mean) ^ 2).sum / n) ≤ 0 :=
        fun hle => hstd (le_antisymm hle hstdnn)
      simp [hstd, hnle]

lemma find?_highlight_walls (stats : List (ℚ × BucketStats)) (walls : List Level)
    (w : Level) (hnd : (walls.map Level.price).Nodup) (hw : w ∈ walls) :
    ((walls.map fun wall => (wall.price, highlightOf stats wall)).find?
      fun p => p.1 = w.price) = some (w.price, highlightOf stats w) := by
  induction walls with
  | nil => cases hw
  | cons w0 walls ih =>
    rw [List.map_cons] at hnd
    rcases List.nodup_cons.mp hnd with ⟨hnotin, hnd2⟩
    rcases List.mem_cons.mp hw with rfl | hw2
    · simp [List.find?_cons]
    · have hne : ¬ w0.price = w.price := by
        intro hh
        exact hnotin (hh ▸ List.mem_map_of_mem Level.price hw2)
      rw [List.map_cons, List.find?_cons_of_neg _ (by simpa using hne)]
      exact ih hnd2 hw2

/-- Claim C2: for each wall-candidate bucket (wall candidates carry distinct
bucket keys), the computed anomaly intensity equals the spec formula
clamp(z/3, 0, 1) over the bucket's population statistics — 0 when the bucket
has fewer than 2 samples, the standard deviation is 0, or the whole history
holds fewer than 2 snapshots — and the bucket is flagged a confirmed wall
exactly when that intensity is at least 0.35. -/
theorem wall_intensity_matches_spec (history : List OrderBookSnapshot)
    (walls : List Level) (side : Side) (depth : ℕ) (bucketSize : ℚ)
    (hbs : 0 < bucketSize) (hnd : (walls.map Level.price).Nodup)
    (w : Level) (hw : w ∈ walls) :
    intensityAt history depth bucketSize walls side w.price =
        specIntensity history side depth bucketSize w.price w.qty ∧
      (confirmedWall history depth bucketSize walls side w.price ↔
        (7 / 20 : ℝ) ≤ specIntensity history side depth bucketSize w.price w.qty) := by
  have hmain : intensityAt history depth bucketSize walls side w.price =
      specIntensity history side depth bucketSize w.price w.qty := by
    by_cases hh : history.length < 2
    · rw [intensityAt, computeHighlight, if_pos (Or.inl hh)]
      rw [specIntensity]
      simp [hh]
    · have hguard : ¬ (history.length < 2 ∨ bucketSize ≤ 0) := by
        push_neg
        exact ⟨not_lt.mp hh, hbs⟩
      rw [intensityAt, computeHighlight, if_neg hguard]
      rw [find?_highlight_walls _ _ _ hnd hw]
      rw [Option.map_some', Option.getD_some]
      rw [highlightOf_formula _ _ _ (statsOf_collectStats history side depth bucketSize w.price)]
      rw [specIntensity_formula _ _ _ _ _ _ hh]
  exact ⟨hmain, by rw [confirmedWall, hmain]⟩

/-- Concrete instantiation of the C2 theorem: a two-snapshot history with one
bid level each, a single wall candidate in bucket 100 with quantity 5,
depth 10 and bucket size 10. -/
theorem wall_intensity_matches_spec_witness :
    (0 : ℚ) < 10 ∧
    (([⟨100, 5⟩] : List Level).map Level.price).Nodup ∧
    (⟨100, 5⟩ : Level) ∈ ([⟨100, 5⟩] : List Level) ∧
    (intensityAt [⟨none, [(100, 1)], [], none⟩, ⟨none, [(100, 3)], [], none⟩]
        10 10 [⟨100, 5⟩] Side.bid 100 =
      specIntensity [⟨none, [(100, 1)], [], none⟩, ⟨none, [(100, 3)], [], none⟩]
        Side.bid 10 10 100 5 ∧
      (confirmedWall [⟨none, [(100, 1)], [], none⟩, ⟨none, [(100, 3)], [], none⟩]
          10 10 [⟨100, 5⟩] Side.bid 100 ↔
        (7 / 20 : ℝ) ≤ specIntensity
          [⟨none, [(100, 1)], [], none⟩, ⟨none, [(100, 3)], [], none⟩]
          Side.bid 10 10 100 5)) := by
  have hbs : (0 : ℚ) < 10 := by norm_num
  have hnd : (([⟨100, 5⟩] : List Level).map Level.price).Nodup := by simp
  have hw : (⟨100, 5⟩ : Level) ∈ ([⟨100, 5⟩] : List Level) := by simp
  exact ⟨hbs, hnd, hw,
    wall_intensity_matches_spec
      [⟨none, [(100, 1)], [], none⟩, ⟨none, [(100, 3)], [], none⟩]
      [⟨100, 5⟩] Side.bid 10 10 hbs hnd ⟨100, 5⟩ hw⟩

/-- The per-wall intensity the render loop attributes to one wall candidate:
the guard of `computeHighlight` followed by `highlightOf`. -/
noncomputable def wallIntensity (history : List OrderBookSnapshot) (side : Side)
    (depth : ℕ) (bucketSize : ℚ) (wall : Level) : ℝ :=
  if history.length < 2 ∨ bucketSize ≤ 0 then 0
  else highlightOf (collectStats history side depth bucketSize) wall

lemma wallIntensity_formula (history : List OrderBookSnapshot) (side : Side)
    (depth : ℕ) (bucketSize price q : ℚ)
    (hguard : ¬ (history.length < 2 ∨ bucketSize ≤ 0)) :
    wallIntensity history side depth bucketSize ⟨price, q⟩ =
      intensityFormula (bucketSamples history side depth bucketSize price) q := by
  rw [wallIntensity, if_neg hguard]
  exact highlightOf_formula _ _ _ (statsOf_collectStats history side depth bucketSize price)

lemma clamp_step_mono (mean std : ℝ) (q1 q2 : ℚ) (h : q1 ≤ q2) :
    (if std ≤ 0 then (0 : ℝ) else max 0 (min (((q1 : ℝ) - mean) / std / 3) 1)) ≤
      (if std ≤ 0 then (0 : ℝ) else max 0 (min (((q2 : ℝ) - mean) / std / 3) 1)) := by
  by_cases hstd : std ≤ 0
  · simp [hstd]
  · simp only [hstd, if_false, ite_false]
    have hpos : 0 < std := lt_of_not_le hstd
    have hc : (q1 : ℝ) ≤ (q2 : ℝ) := by exact_mod_cast h
    refine max_le_max le_rfl (min_le_min ?_ le_rfl)
    gcongr

lemma intensityFormula_mono (S : List ℚ) (q1 q2 : ℚ) (h : q1 ≤ q2) :
    intensityFormula S q1 ≤ intensityFormula S q2 := by
  rw [intensityFormula, intensityFormula]
  by_cases hlen : S.length < 2
  · simp [hlen]
  · rw [if_neg hlen, if_neg hlen]
    exact clamp_step_mono _ _ _ _ h

/-- Claim C3: holding the snapshot history (hence every bucket's sample
statistics) fixed, increasing a wall bucket's current quantity never
decreases its computed anomaly intensity. -/
theorem wall_intensity_mono (history : List OrderBookSnapshot) (side : Side)
    (depth : ℕ) (bucketSize price q1 q2 : ℚ) (h : q1 ≤ q2) :
    wallIntensity history side depth bucketSize ⟨price, q1⟩ ≤
      wallIntensity history side depth bucketSize ⟨price, q2⟩ := by
  by_cases hguard : history.length < 2 ∨ bucketSize ≤ 0
  · rw [wallIntensity, wallIntensity, if_pos hguard, if_pos hguard]
  · rw [wallIntensity_formula _ _ _ _ _ _ hguard,
      wallIntensity_formula _ _ _ _ _ _ hguard]
    exact intensityFormula_mono _ _ _ h

/-- Concrete instantiation of the C3 theorem: quantities 1 ≤ 2 in bucket 100
over a two-snapshot history. -/
theorem wall_intensity_mono_witness :
    (1 : ℚ) ≤ 2 ∧
    wallIntensity [⟨none, [(100, 1)], [], none⟩, ⟨none, [(100, 3)], [], none⟩]
        Side.bid 10 10 ⟨100, 1⟩ ≤
      wallIntensity [⟨none, [(100, 1)], [], none⟩, ⟨none, [(100, 3)], [], none⟩]
        Side.bid 10 10 ⟨100, 2⟩ :=
  ⟨by norm_num,
    wall_intensity_mono [⟨none, [(100, 1)], [], none⟩, ⟨none, [(100, 3)], [], none⟩]
      Side.bid 10 10 100 1 2 (by norm_num)⟩

end OrderBookPanel

/-! ## Feature scorer and bubble lifecycle manager (WhaleBubbleSpace) -/

namespace BubbleSpace

/-- The `clamp` helper of WhaleBubbleSpace over ℝ:
Math.max(min, Math.min(value, max)). -/
noncomputable def clampR (value lo hi : ℝ) : ℝ := max lo (min value hi)

/-- WhaleBubbleSpace `computeAggression`, as a pure function of the two
rolling refs it reads (`avgTradeValueRef`, `lastTradeTsRef`): returns the
aggression score together with the updated last-trade timestamp.  JS
falsiness is kept: an average of 0 falls back to the trade's own value then
to 1 (`avg || tradeValue || 1`), and a stored last timestamp of 0 counts as
absent (`lastTs ? ... : 1000`). -/
noncomputable def computeAggression (avgRef : ℝ) (lastTs : Option ℝ)
    (tradeValue ts : ℝ) : ℝ × Option ℝ :=
  let avg := if avgRef ≠ 0 then avgRef else if tradeValue ≠ 0 then tradeValue else 1
  let ratioVal := if 0 < avg then tradeValue / avg else 1
  let sizeScore := clampR (Real.log (max ratioVal 1) / Real.log 6) 0 1
  let deltaMs :=
    match lastTs with
    | some t => if t ≠ 0 then max (ts - t) 0 else 1000
    | none => 1000
  let speedScore := clampR ((500 - deltaMs) / 500) 0 1
  (clampR (sizeScore * 0.7 + speedScore * 0.3) 0 1, some ts)

/-- The aggression formula exactly as the claim originally words it, for
the counterexample against `computeAggression`: sizeScore from
ratio = tradeValue / recentAvg with the average defaulting to the trade's
own value and then to 1 when no history exists (avgRef = 0), and speedScore
from gapMs = max(ts − lastTs, 0) whenever a prior event exists, with the
1000 ms default gap taken only when no prior event exists. -/
noncomputable def claimedAggression (avgRef : ℝ) (lastTs : Option ℝ)
    (tradeValue ts : ℝ) : ℝ :=
  let avg := if avgRef = 0 then (if tradeValue = 0 then 1 else tradeValue) else avgRef
  let ratioVal := tradeValue / avg
  let sizeScore := clampR (Real.log (max ratioVal 1) / Real.log 6) 0 1
  let gapMs :=
    match lastTs with
    | some t => max (ts - t) 0
    | none => 1000
  let speedScore := clampR ((500 - gapMs) / 500) 0 1
  clampR (0.7 * sizeScore + 0.3 * speedScore) 0 1

/-- The amended aggression formula (claim C5 as corrected), for comparison
against `computeAggression`: as `claimedAggression`, except that the 1000 ms
default gap (speedScore 0) is taken when no prior event exists or when the
recorded last-event timestamp is exactly 0, which the code's JS-falsy ref
check treats as absent. -/
noncomputable def specAggression (avgRef : ℝ) (lastTs : Option ℝ)
    (tradeValue ts : ℝ) : ℝ :=
  let avg := if avgRef = 0 then (if tradeValue = 0 then 1 else tradeValue) else avgRef
  let ratioVal := tradeValue / avg
  let sizeScore := clampR (Real.log (max ratioVal 1) / Real.log 6) 0 1
  let gapMs :=
    match lastTs with
    | some t => if t = 0 then 1000 else max (ts - t) 0
    | none => 1000
  let speedScore := clampR ((500 - gapMs) / 500) 0 1
  clampR (0.7 * sizeScore + 0.3 * speedScore) 0 1

/-- Claim C5 counterexample: with a recorded prior timestamp of exactly 0 (a
prior event exists), the code takes the JS-falsy default branch (gap 1000 ms,
speedScore 0) while the claim's formula gives gap = max(100 − 0, 0) = 100 ms
and speedScore 0.8; the trade matches the average so both size scores are 0,
leaving aggression 0 versus 0.24. -/
theorem aggression_spec_counterexample :
    (computeAggression 100 (some 0) 100 100).1 = 0 ∧
    claimedAggression 100 (some 0) 100 100 = 24 / 100 ∧
    (computeAggression 100 (some 0) 100 100).1 ≠
      claimedAggression 100 (some 0) 100 100 := by
  have hcode : (computeAggression 100 (some 0) 100 100).1 = 0 := by
    norm_num [computeAggression, clampR, Real.log_one]
  have hspec : claimedAggression 100 (some 0) 100 100 = 24 / 100 := by
    norm_num [claimedAggression, clampR, Real.log_one]
  refine ⟨hcode, hspec, ?_⟩
  rw [hcode, hspec]
  norm_num

/-- Claim C5 amended: for every trade (nonnegative trade value and rolling
average), the returned aggression equals clamp(0.7·sizeScore +
0.3·speedScore, 0, 1) with sizeScore = clamp(log(max(ratio,1))/log 6, 0, 1),
ratio = tradeValue / recentAvg (average defaulting to the trade's own value
then to 1 when no history exists), speedScore = clamp((500 − gapMs)/500, 0, 1),
gapMs = max(ts − lastTs, 0) defaulting to 1000 ms (speedScore 0) when no
prior event exists or when the recorded last-event timestamp is exactly 0
(the JS-falsy ref check); the last timestamp is updated to the event's, and
the very first event (no history, no prior event) scores aggression 0. -/
theorem aggression_matches_spec (avgRef : ℝ) (lastTs : Option ℝ)
    (tradeValue ts : ℝ) (hav : 0 ≤ avgRef) (htv : 0 ≤ tradeValue) :
    (computeAggression avgRef lastTs tradeValue ts).1 =
        specAggression avgRef lastTs tradeValue ts ∧
    (computeAggression avgRef lastTs tradeValue ts).2 = some ts ∧
    (avgRef = 0 → lastTs = none →
      (computeAggression avgRef lastTs tradeValue ts).1 = 0) := by
  have havg_eq : (if avgRef ≠ 0 then avgRef else if tradeValue ≠ 0 then tradeValue else 1)
      = (if avgRef = 0 then (if tradeValue = 0 then 1 else tradeValue) else avgRef) := by
    by_cases ha : avgRef = 0 <;> by_cases ht : tradeValue = 0 <;> simp [ha, ht]
  have havgpos : 0 < (if avgRef = 0 then (if tradeValue = 0 then 1 else tradeValue) else avgRef) := by
    by_cases ha : avgRef = 0
    · by_cases ht : tradeValue = 0
      · simp [ha, ht]
      · simp only [ha, ht, if_true, if_false, ite_true, ite_false]
        exact lt_of_le_of_ne htv (Ne.symm ht)
    · simp only [ha, if_false, ite_false]
      exact lt_of_le_of_ne hav (Ne.symm ha)
  have hmul : ∀ a b : ℝ, a * 0.7 + b * 0.3 = 0.7 * a + 0.3 * b := by
    intro a b
    ring
  refine ⟨?_, rfl, ?_⟩
  · cases lastTs with
    | none =>
        simp only [computeAggression, specAggression, havg_eq, if_pos havgpos]
        rw [hmul]
    | some t =>
        by_cases ht0 : t = 0
        · subst ht0
          have h0 : ¬ ((0 : ℝ) ≠ 0) := fun h => h rfl
          simp only [computeAggression, specAggression, havg_eq, if_pos havgpos,
            if_neg h0, if_pos (rfl : (0 : ℝ) = 0), if_true, ite_true]
          rw [hmul]
        · simp only [computeAggression, specAggression, havg_eq, if_pos havgpos,
            if_pos ht0, if_neg ht0]
          rw [hmul]
  · intro ha hnone
    subst hnone
    simp only [computeAggression, ha, ne_eq, not_true_eq_false, if_false, ite_false]
    by_cases ht : tradeValue = 0
    · norm_num [ht, clampR, Real.log_one]
    · have hpos : 0 < tradeValue := lt_of_le_of_ne htv (Ne.symm ht)
      norm_num [ht, hpos, div_self, clampR, Real.log_one]

/-- Concrete instantiation of the amended C5 theorem, exercising the case
the correction added: a recorded prior timestamp of exactly 0, where the
code and the amended formula both default the gap to 1000 ms. -/
theorem aggression_matches_spec_witness :
    (0 : ℝ) ≤ 100 ∧
    ((computeAggression 100 (some 0) 100 100).1 =
        specAggression 100 (some 0) 100 100 ∧
      (computeAggression 100 (some 0) 100 100).2 = some 100 ∧
      ((100 : ℝ) = 0 → (some (0 : ℝ)) = none →
        (computeAggression 100 (some 0) 100 100).1 = 0)) := by
  have h1 : (0 : ℝ) ≤ 100 := by norm_num
  exact ⟨h1, aggression_matches_spec 100 (some 0) 100 100 h1 h1⟩

/-- WhaleBubbleSpace constant: entity lifespan in ms. -/
def LIFESPAN_MS : ℚ := 60000

/-- WhaleBubbleSpace constant: entity pool capacity. -/
def MAX_BUBBLES : ℕ := 420

/-- WhaleBubbleSpace constant: whale classification threshold in USD. -/
def WHALE_THRESHOLD : ℚ := 100000

/-- WhaleBubbleSpace constant: clamp range of the price axis. -/
def PRICE_RANGE : ℚ := 6

/-- WhaleBubbleSpace constant: scale of the relative price delta. -/
def PRICE_SCALE : ℚ := 120

/-- The `clamp` helper of WhaleBubbleSpace over ℚ. -/
def clampQ (value lo hi : ℚ) : ℚ := max lo (min value hi)

/-- WhaleBubbleSpace `getMidPrice`: 0 for a missing snapshot; the first level
of each side or 0 when absent; 0 when either best level is falsy; otherwise
the midpoint. -/
def getMidPrice (snapshot : Option OrderBookSnapshot) : ℚ :=
  match snapshot with
  | none => 0
  | some snap =>
      let bestBid := ((snap.bids.head?).map Prod.fst).getD 0
      let bestAsk := ((snap.asks.head?).map Prod.fst).getD 0
      if bestBid = 0 ∨ bestAsk = 0 then 0 else (bestBid + bestAsk) / 2

/-- WhaleBubbleSpace `priceToY`: axis position 0 when the mid price or the
price is falsy, otherwise the clamped scaled relative delta. -/
def priceToY (mid price : ℚ) : ℚ :=
  if mid = 0 ∨ price = 0 then 0
  else clampQ ((price - mid) / mid * PRICE_SCALE) (-PRICE_RANGE) PRICE_RANGE

/-- The semantic entity record (WhaleBubbleSpace `Bubble`): the three.js mesh,
ring and trail objects are represented by their semantic content — ring
presence and trail buffer size (a Float32Array of 18 floats = 6 position
slots); the random x/z jitter and drift velocity are rendering-only. -/
structure Bubble where
  id : Int
  hasRing : Bool
  trailFloats : Option ℕ
  createdAt : ℚ
  price : ℚ
  posY : ℚ
  isBuy : Bool
  isWhale : Bool
  tradeValue : ℚ
  aggression : ℚ
  baseOpacity : ℚ
deriving DecidableEq

/-- The bubble manager's state: the entity pool (`bubblesRef`), the dedup set
(`seenTradesRef`), the last-trade timestamp ref, scene presence and the mid
price ref. -/
structure BubbleState where
  bubbles : List Bubble
  seen : Finset Int
  lastTradeTs : Option ℚ
  sceneReady : Bool
  mid : ℚ
deriving DecidableEq

/-- The trade fields `addBubble` reads. -/
structure SpawnTrade where
  trade_id : Int
  price : ℚ
  quantity : ℚ
  trade_value : ℚ
  is_buy : Bool
deriving DecidableEq

/-- The options object passed to `addBubble`. -/
structure SpawnOpts where
  isWhale : Bool
  ageMs : ℚ
  aggression : ℚ
  qty : ℚ
deriving DecidableEq

/-- The entity record `addBubble` constructs (it depends only on the mid
price, the wall clock and the arguments): ring and 18-float trail exactly for
whales, createdAt backdated by the event's age, y anchored at
`priceToY(price)`. -/
def mkBubble (mid now : ℚ) (trade : SpawnTrade) (opts : SpawnOpts) : Bubble where
  id := trade.trade_id
  hasRing := opts.isWhale
  trailFloats := if opts.isWhale then some 18 else none
  createdAt := now - opts.ageMs
  price := trade.price
  posY := priceToY mid trade.price
  isBuy := trade.is_buy
  isWhale := opts.isWhale
  tradeValue := trade.trade_value
  aggression := opts.aggression
  baseOpacity := if opts.isWhale then 0.85 else 0.6

/-- WhaleBubbleSpace `addBubble`: no-op on a seen trade_id (the id is NOT
added again); otherwise the id is recorded as seen first, then the spawn is
discarded when the scene is missing or the event's age reaches the lifespan;
otherwise the entity is appended and, when the pool exceeds MAX_BUBBLES, the
oldest entity is shifted off the front.  Returns the new state and the
created bubble (none when nothing was created). -/
def addBubble (s : BubbleState) (now : ℚ) (trade : SpawnTrade)
    (opts : SpawnOpts) : BubbleState × Option Bubble :=
  if trade.trade_id ∈ s.seen then (s, none)
  else
    let s1 := { s with seen := insert trade.trade_id s.seen }
    if ¬ s1.sceneReady then (s1, none)
    else if LIFESPAN_MS ≤ opts.ageMs then (s1, none)
    else
      let bubble := mkBubble s1.mid now trade opts
      let pool := s1.bubbles ++ [bubble]
      let pool2 := if MAX_BUBBLES < pool.length then pool.tail else pool
      ({ s1 with bubbles := pool2 }, some bubble)

/-- A spawn request: the wall clock at spawn plus the trade and options. -/
structure SpawnOp where
  now : ℚ
  trade : SpawnTrade
  opts : SpawnOpts
deriving DecidableEq

/-- A sequence of spawns applied to the manager state. -/
def runSpawns (s : BubbleState) (ops : List SpawnOp) : BubbleState :=
  ops.foldl (fun st op => (addBubble st op.now op.trade op.opts).1) s

lemma runSpawns_cons (s : BubbleState) (op : SpawnOp) (ops : List SpawnOp) :
    runSpawns s (op :: ops) =
      runSpawns (addBubble s op.now op.trade op.opts).1 ops := rfl

/-- The bubbles a spawn sequence actually creates, in creation order. -/
def creations (s : BubbleState) : List SpawnOp → List Bubble
  | [] => []
  | op :: ops =>
      ((addBubble s op.now op.trade op.opts).2).toList ++
        creations (addBubble s op.now op.trade op.opts).1 ops

/-- The manager state right after `resetBubbles` ran in a mounted component:
empty pool, empty seen set, cleared last timestamp, scene present. -/
def resetState (mid : ℚ) : BubbleState where
  bubbles := []
  seen := ∅
  lastTradeTs := none
  sceneReady := true
  mid := mid

lemma addBubble_seen (s : BubbleState) (now : ℚ) (trade : SpawnTrade)
    (opts : SpawnOpts) :
    (addBubble s now trade opts).1.seen =
      if trade.trade_id ∈ s.seen then s.seen
      else insert trade.trade_id s.seen := by
  simp only [addBubble]
  split_ifs <;> rfl

lemma addBubble_mid (s : BubbleState) (now : ℚ) (trade : SpawnTrade)
    (opts : SpawnOpts) :
    (addBubble s now trade opts).1.mid = s.mid := by
  simp only [addBubble]
  split_ifs <;> rfl

lemma addBubble_scene (s : BubbleState) (now : ℚ) (trade : SpawnTrade)
    (opts : SpawnOpts) :
    (addBubble s now trade opts).1.sceneReady = s.sceneReady := by
  simp only [addBubble]
  split_ifs <;> rfl

lemma addBubble_seen_mono (s : BubbleState) (now : ℚ) (trade : SpawnTrade)
    (opts : SpawnOpts) :
    s.seen ⊆ (addBubble s now trade opts).1.seen := by
  rw [addBubble_seen]
  split_ifs
  · exact Finset.Subset.refl _
  · exact Finset.subset_insert _ _

lemma addBubble_id_mem (s : BubbleState) (now : ℚ) (trade : SpawnTrade)
    (opts : SpawnOpts) :
    trade.trade_id ∈ (addBubble s now trade opts).1.seen := by
  rw [addBubble_seen]
  split_ifs with h
  · exact h
  · exact Finset.mem_insert_self _ _

lemma addBubble_created (s : BubbleState) (now : ℚ) (trade : SpawnTrade)
    (opts : SpawnOpts) (b : Bubble)
    (h : (addBubble s now trade opts).2 = some b) :
    b = mkBubble s.mid now trade opts ∧ trade.trade_id ∉ s.seen := by
  by_cases h1 : trade.trade_id ∈ s.seen
  · rw [addBubble, if_pos h1] at h
    cases h
  · refine ⟨?_, h1⟩
    simp only [addBubble, if_neg h1] at h
    split_ifs at h <;> cases h <;> rfl

lemma creations_ids_nodup (s : BubbleState) (ops : List SpawnOp) :
    ((creations s ops).map Bubble.id).Nodup ∧
      ∀ b ∈ creations s ops, b.id ∉ s.seen := by
  induction ops generalizing s with
  | nil => simp [creations]
  | cons op ops ih =>
    obtain ⟨ihnd, ihfresh⟩ := ih (addBubble s op.now op.trade op.opts).1
    cases hr : (addBubble s op.now op.trade op.opts).2 with
    | none =>
      simp only [creations, hr, Option.toList_none, List.nil_append]
      exact ⟨ihnd, fun b hb hmem =>
        ihfresh b hb (addBubble_seen_mono s op.now op.trade op.opts hmem)⟩
    | some b =>
      obtain ⟨hbeq, hbfresh⟩ := addBubble_created _ _ _ _ _ hr
      have hbid : b.id = op.trade.trade_id := by
        rw [hbeq]
        rfl
      simp only [creations, hr, Option.toList_some, List.singleton_append,
        List.map_cons, List.nodup_cons]
      refine ⟨⟨?_, ihnd⟩, ?_⟩
      · intro hmem
        rcases List.mem_map.mp hmem with ⟨c, hc, hcid⟩
        refine ihfresh c hc ?_
        rw [hcid, hbid]
        exact addBubble_id_mem s op.now op.trade op.opts
      · intro c hc
        rcases List.mem_cons.mp hc with rfl | hc2
        · rw [hbid]
          exact hbfresh
        · exact fun hmem =>
            ihfresh c hc2 (addBubble_seen_mono s op.now op.trade op.opts hmem)

/-- Claim C6: within one focus-mode session (from the reset state), at most
one entity is ever created per trade_id — whatever mix of fresh, stale or
capacity-evicting spawns the sequence holds, since an id is recorded as seen
even when its spawn is then discarded as stale, and eviction never forgets an
id — and a spawn whose trade_id is already seen is a strict no-op on the
manager state. -/
theorem spawn_dedup (mid : ℚ) (ops : List SpawnOp) (tid : Int) :
    ((creations (resetState mid) ops).map Bubble.id).count tid ≤ 1 ∧
    (∀ (s : BubbleState) (now : ℚ) (trade : SpawnTrade) (opts : SpawnOpts),
      trade.trade_id ∈ s.seen → addBubble s now trade opts = (s, none)) := by
  constructor
  · exact List.nodup_iff_count_le_one.mp (creations_ids_nodup (resetState mid) ops).1 tid
  · intro s now trade opts h
    rw [addBubble, if_pos h]

/-- Concrete instantiation of the C6 theorem: a spawn whose trade_id 5 is
already in the seen set is a no-op. -/
theorem spawn_dedup_witness :
    ((5 : Int) ∈ ({5} : Finset Int)) ∧
    addBubble ⟨[], {5}, none, true, 0⟩ 0 ⟨5, 1, 1, 1, true⟩ ⟨false, 0, 0, 1⟩ =
      (⟨[], {5}, none, true, 0⟩, none) := by
  have h : (5 : Int) ∈ ({5} : Finset Int) := Finset.mem_singleton_self 5
  exact ⟨h, (spawn_dedup 0 [] 5).2 ⟨[], {5}, none, true, 0⟩ 0
    ⟨5, 1, 1, 1, true⟩ ⟨false, 0, 0, 1⟩ h⟩

lemma addBubble_create (s : BubbleState) (now : ℚ) (trade : SpawnTrade)
    (opts : SpawnOpts) (hseen : trade.trade_id ∉ s.seen)
    (hscene : s.sceneReady = true) (hage : opts.ageMs < LIFESPAN_MS) :
    addBubble s now trade opts =
      ({ s with
          seen := insert trade.trade_id s.seen
          bubbles :=
            if MAX_BUBBLES < (s.bubbles ++ [mkBubble s.mid now trade opts]).length
            then (s.bubbles ++ [mkBubble s.mid now trade opts]).tail
            else s.bubbles ++ [mkBubble s.mid now trade opts] },
        some (mkBubble s.mid now trade opts)) := by
  simp [addBubble, if_neg hseen, hscene, not_le.mpr hage]

lemma addBubble_stale_bubbles (s : BubbleState) (now : ℚ) (trade : SpawnTrade)
    (opts : SpawnOpts) (h : LIFESPAN_MS ≤ opts.ageMs) :
    (addBubble s now trade opts).1.bubbles = s.bubbles := by
  simp only [addBubble]
  split_ifs with h1 h2
  · rfl
  · rfl
  · rfl

/-- The pool update of a single creating spawn: append, then shift the
oldest entity off the front when the pool exceeds MAX_BUBBLES. -/
def poolStep (pool : List Bubble) (b : Bubble) : List Bubble :=
  if MAX_BUBBLES < (pool ++ [b]).length then (pool ++ [b]).tail else pool ++ [b]

lemma foldl_poolStep (bs : List Bubble) (pool : List Bubble)
    (hlen : pool.length ≤ MAX_BUBBLES) :
    bs.foldl poolStep pool =
      (pool ++ bs).drop ((pool.length + bs.length) - MAX_BUBBLES) := by
  induction bs generalizing pool with
  | nil => simp [Nat.sub_eq_zero_of_le hlen]
  | cons b bs ih =>
    rw [List.foldl_cons]
    by_cases hover : MAX_BUBBLES < (pool ++ [b]).length
    · have hk : pool.length = MAX_BUBBLES := by
        rw [List.length_append, List.length_cons, List.length_nil] at hover
        omega
      have hlen2 : (pool ++ [b]).tail.length ≤ MAX_BUBBLES := by
        rw [List.length_tail, List.length_append, List.length_cons, List.length_nil]
        omega
      rw [poolStep, if_pos hover, ih _ hlen2]
      have hne : pool ++ [b] ≠ [] := by simp
      have ht : (pool ++ [b]).tail ++ bs = (pool ++ b :: bs).tail := by
        have h1 : ((pool ++ [b]) ++ bs).tail = (pool ++ [b]).tail ++ bs :=
          List.tail_append_of_ne_nil hne
        rw [← h1, List.append_assoc, List.singleton_append]
      have hidx : ((pool ++ [b]).tail.length + bs.length) - MAX_BUBBLES = bs.length := by
        rw [List.length_tail, List.length_append, List.length_cons, List.length_nil]
        omega
      rw [hidx, ht, ← List.drop_one, List.drop_drop]
      have h3 : 1 + bs.length = pool.length + (b :: bs).length - MAX_BUBBLES := by
        rw [List.length_cons]
        omega
      rw [h3]
    · have hlen2 : (pool ++ [b]).length ≤ MAX_BUBBLES := not_lt.mp hover
      have h3 : (pool ++ [b]).length + bs.length - MAX_BUBBLES
          = pool.length + (b :: bs).length - MAX_BUBBLES := by
        rw [List.length_append, List.length_cons, List.length_cons, List.length_nil]
        omega
      rw [poolStep, if_neg hover, ih _ hlen2, List.append_assoc,
        List.singleton_append, h3]

lemma runSpawns_bubbles (s : BubbleState) (ops : List SpawnOp)
    (hscene : s.sceneReady = true)
    (hseen : ∀ op ∈ ops, op.trade.trade_id ∉ s.seen)
    (hids : (ops.map fun op => op.trade.trade_id).Nodup)
    (hage : ∀ op ∈ ops, op.opts.ageMs < LIFESPAN_MS) :
    (runSpawns s ops).bubbles =
      (ops.map fun op => mkBubble s.mid op.now op.trade op.opts).foldl
        poolStep s.bubbles := by
  induction ops generalizing s with
  | nil => rfl
  | cons op ops ih =>
    rw [List.map_cons] at hids
    rcases List.nodup_cons.mp hids with ⟨hid0, hids2⟩
    have hadd := addBubble_create s op.now op.trade op.opts
      (hseen op (List.mem_cons_self op ops)) hscene
      (hage op (List.mem_cons_self op ops))
    have hseen2 : ∀ o ∈ ops, o.trade.trade_id ∉ insert op.trade.trade_id s.seen := by
      intro o ho hmem
      rcases Finset.mem_insert.mp hmem with heq | hmem2
      · exact hid0 (heq ▸ List.mem_map_of_mem (fun o => o.trade.trade_id) ho)
      · exact hseen o (List.mem_cons_of_mem op ho) hmem2
    have hage2 : ∀ o ∈ ops, o.opts.ageMs < LIFESPAN_MS :=
      fun o ho => hage o (List.mem_cons_of_mem op ho)
    rw [runSpawns_cons, hadd, List.map_cons, List.foldl_cons]
    exact ih
      { s with
          seen := insert op.trade.trade_id s.seen
          bubbles :=
            if MAX_BUBBLES < (s.bubbles ++ [mkBubble s.mid op.now op.trade op.opts]).length
            then (s.bubbles ++ [mkBubble s.mid op.now op.trade op.opts]).tail
            else s.bubbles ++ [mkBubble s.mid op.now op.trade op.opts] }
      hscene hseen2 hids2 hage2

lemma runSpawns_capacity (s : BubbleState) (ops : List SpawnOp)
    (hscene : s.sceneReady = true)
    (hlen : s.bubbles.length ≤ MAX_BUBBLES)
    (hseen : ∀ op ∈ ops, op.trade.trade_id ∉ s.seen)
    (hids : (ops.map fun op => op.trade.trade_id).Nodup)
    (hage : ∀ op ∈ ops, op.opts.ageMs < LIFESPAN_MS) :
    (runSpawns s ops).bubbles =
      (s.bubbles ++ ops.map fun op => mkBubble s.mid op.now op.trade op.opts).drop
        ((s.bubbles.length + ops.length) - MAX_BUBBLES) := by
  rw [runSpawns_bubbles s ops hscene hseen hids hage,
    foldl_poolStep _ _ hlen, List.length_map]

/-- Claim C7 counterexample (to the claim as stated): 421 spawns with fresh
distinct trade ids — hence all non-deduplicated — whose age at spawn equals
the 60000 ms lifespan; every one is discarded by the stale-age check, so
after more than 420 non-deduplicated spawns the pool holds 0 entities, not
exactly 420. -/
def staleOp (i : ℕ) : SpawnOp where
  now := 60000
  trade := ⟨(i : Int), 1, 1, 1, true⟩
  opts := ⟨false, 60000, 0, 1⟩

theorem capacity_claim_counterexample :
    ((List.range 421).map staleOp).length = 421 ∧
    ((((List.range 421).map staleOp).map fun op => op.trade.trade_id).Nodup) ∧
    (runSpawns (resetState 0) ((List.range 421).map staleOp)).bubbles.length ≠ 420 := by
  have hstale : ∀ (l : List ℕ) (s : BubbleState),
      (runSpawns s (l.map staleOp)).bubbles = s.bubbles := by
    intro l
    induction l with
    | nil => intro s; rfl
    | cons i l ih =>
      intro s
      rw [List.map_cons, runSpawns_cons, ih]
      exact addBubble_stale_bubbles _ _ _ _ (le_refl _)
  refine ⟨by simp, ?_, ?_⟩
  · rw [List.map_map]
    have hco : ((fun op => op.trade.trade_id) ∘ staleOp) = fun i : ℕ => (i : Int) := rfl
    rw [hco]
    exact List.Nodup.map (fun a b h => by exact_mod_cast h) (List.nodup_range 421)
  · rw [hstale]
    simp [resetState]

/-- Claim C7 amended: the entity pool never exceeds 420 entities; over any
sequence of non-deduplicated spawns that pass the stale-age check, the pool
is exactly the most recent (up to) 420 created entities in creation order —
each overflowing spawn evicts the oldest-created entity (FIFO) regardless of
remaining lifespan — and after more than 420 such spawns it holds exactly
420. -/
theorem capacity_fifo (mid : ℚ) (ops : List SpawnOp)
    (hids : (ops.map fun op => op.trade.trade_id).Nodup)
    (hage : ∀ op ∈ ops, op.opts.ageMs < LIFESPAN_MS) :
    (runSpawns (resetState mid) ops).bubbles =
        (ops.map fun op => mkBubble mid op.now op.trade op.opts).drop
          (ops.length - MAX_BUBBLES) ∧
      (runSpawns (resetState mid) ops).bubbles.length ≤ MAX_BUBBLES ∧
      (MAX_BUBBLES < ops.length →
        (runSpawns (resetState mid) ops).bubbles.length = MAX_BUBBLES) := by
  have h := runSpawns_capacity (resetState mid) ops rfl
    (by simp [resetState])
    (by
      intro op hop hmem
      simp [resetState] at hmem)
    hids hage
  have h2 : (runSpawns (resetState mid) ops).bubbles =
      (ops.map fun op => mkBubble mid op.now op.trade op.opts).drop
        (ops.length - MAX_BUBBLES) := by
    simpa [resetState] using h
  refine ⟨h2, ?_, ?_⟩
  · rw [h2, List.length_drop, List.length_map]
    omega
  · intro hlt
    rw [h2, List.length_drop, List.length_map]
    omega

/-- A fresh non-stale spawn request used to instantiate the capacity theorem. -/
def freshOp (i : ℕ) : SpawnOp where
  now := 0
  trade := ⟨(i : Int), 1, 1, 1, true⟩
  opts := ⟨false, 0, 0, 1⟩

/-- Concrete instantiation of the amended C7 theorem: 421 fresh, non-stale
spawns with distinct ids. -/
theorem capacity_fifo_witness :
    ((((List.range 421).map freshOp).map fun op => op.trade.trade_id).Nodup) ∧
    (∀ op ∈ (List.range 421).map freshOp, op.opts.ageMs < LIFESPAN_MS) ∧
    ((runSpawns (resetState 0) ((List.range 421).map freshOp)).bubbles =
        (((List.range 421).map freshOp).map fun op =>
          mkBubble 0 op.now op.trade op.opts).drop
          (((List.range 421).map freshOp).length - MAX_BUBBLES) ∧
      (runSpawns (resetState 0) ((List.range 421).map freshOp)).bubbles.length ≤
        MAX_BUBBLES ∧
      (MAX_BUBBLES < ((List.range 421).map freshOp).length →
        (runSpawns (resetState 0) ((List.range 421).map freshOp)).bubbles.length =
          MAX_BUBBLES)) := by
  have hids : ((((List.range 421).map freshOp).map fun op => op.trade.trade_id).Nodup) := by
    rw [List.map_map]
    have hco : ((fun op => op.trade.trade_id) ∘ freshOp) = fun i : ℕ => (i : Int) := rfl
    rw [hco]
    exact List.Nodup.map (fun a b h => by exact_mod_cast h) (List.nodup_range 421)
  have hage : ∀ op ∈ (List.range 421).map freshOp, op.opts.ageMs < LIFESPAN_MS := by
    intro op hop
    rcases List.mem_map.mp hop with ⟨i, hi, rfl⟩
    norm_num [freshOp, LIFESPAN_MS]
  exact ⟨hids, hage, capacity_fifo 0 ((List.range 421).map freshOp) hids hage⟩

/-- The focus-mode toggle of WhaleBubbleSpace. -/
inductive FocusMode where
  | all
  | whales
deriving DecidableEq

/-- The spawn effect's whale classification:
`focusMode === 'whales' || trade.trade_value >= WHALE_THRESHOLD`. -/
def isWhaleEvent (mode : FocusMode) (tradeValue : ℚ) : Bool :=
  mode = FocusMode.whales ∨ WHALE_THRESHOLD ≤ tradeValue

/-- One step of the spawn effect (and of `hydrateFromTrades`): age from the
event timestamp, whale classification, then `addBubble` with the computed
options; the aggression argument is the separately modelled
`computeAggression` output. -/
def spawnFromFeed (mode : FocusMode) (s : BubbleState) (now ts aggression : ℚ)
    (trade : SpawnTrade) : BubbleState × Option Bubble :=
  addBubble s now trade
    ⟨isWhaleEvent mode trade.trade_value, now - ts, aggression, trade.quantity⟩

/-- Claim C8 counterexample: in whales-only focus mode a spawned entity of
trade value $50 — which does not exceed the $100,000 threshold — is still
classified a whale, with ring and trail, because the code computes
`focusMode === 'whales' || value >= threshold`; and at exactly $100,000 the
code classifies a whale although the value does not exceed the threshold. -/
theorem whale_classification_counterexample :
    isWhaleEvent FocusMode.whales 50 = true ∧
    ¬ ((100000 : ℚ) < 50) ∧
    (spawnFromFeed FocusMode.whales (resetState 0) 0 0 0 ⟨7, 1, 1, 50, true⟩).2 =
      some (mkBubble 0 0 ⟨7, 1, 1, 50, true⟩ ⟨true, 0 - 0, 0, 1⟩) ∧
    (mkBubble 0 0 ⟨7, 1, 1, 50, true⟩ ⟨true, 0 - 0, 0, 1⟩).isWhale = true ∧
    (mkBubble 0 0 ⟨7, 1, 1, 50, true⟩ ⟨true, 0 - 0, 0, 1⟩).hasRing = true ∧
    isWhaleEvent FocusMode.all 100000 = true ∧
    ¬ ((100000 : ℚ) < 100000) := by
  have hw : isWhaleEvent FocusMode.whales 50 = true := by
    rw [isWhaleEvent, decide_eq_true_eq]
    exact Or.inl rfl
  have hw2 : isWhaleEvent FocusMode.all 100000 = true := by
    rw [isWhaleEvent, decide_eq_true_eq]
    right
    norm_num [WHALE_THRESHOLD]
  have hseen : (7 : Int) ∉ (resetState 0).seen := by simp [resetState]
  have hage : ((0 : ℚ) - 0) < LIFESPAN_MS := by norm_num [LIFESPAN_MS]
  have hcre := addBubble_create (resetState 0) 0 ⟨7, 1, 1, 50, true⟩
    ⟨isWhaleEvent FocusMode.whales 50, 0 - 0, 0, 1⟩ hseen rfl hage
  have h2 : (spawnFromFeed FocusMode.whales (resetState 0) 0 0 0 ⟨7, 1, 1, 50, true⟩).2 =
      some (mkBubble 0 0 ⟨7, 1, 1, 50, true⟩ ⟨true, 0 - 0, 0, 1⟩) := by
    show (addBubble (resetState 0) 0 ⟨7, 1, 1, 50, true⟩
      ⟨isWhaleEvent FocusMode.whales 50, 0 - 0, 0, 1⟩).2 =
      some (mkBubble 0 0 ⟨7, 1, 1, 50, true⟩ ⟨true, 0 - 0, 0, 1⟩)
    rw [hcre, hw]
    rfl
  exact ⟨hw, by norm_num, h2, rfl, rfl, hw2, by norm_num⟩

/-- Claim C8 amended: a spawned entity is classified a whale exactly when the
focus mode is whales-only or its trade value is at least (≥, not strictly
above) the fixed $100,000 threshold — independent of whether the event
arrived as a Trade or a WhaleAlert, both of which flow through the same
spawn path; exactly the whale entities receive the decorative ring and the
18-float (6 position slots × 3 coordinates) trail buffer. -/
theorem whale_classification (mode : FocusMode) (s : BubbleState)
    (now ts aggression : ℚ) (trade : SpawnTrade) (b : Bubble)
    (h : (spawnFromFeed mode s now ts aggression trade).2 = some b) :
    (b.isWhale = true ↔ (mode = FocusMode.whales ∨ WHALE_THRESHOLD ≤ trade.trade_value)) ∧
    b.hasRing = b.isWhale ∧
    b.trailFloats = (if b.isWhale then some (3 * 6) else none) := by
  rw [spawnFromFeed] at h
  obtain ⟨hbeq, -⟩ := addBubble_created _ _ _ _ _ h
  subst hbeq
  have hiw : (mkBubble s.mid now trade
      ⟨isWhaleEvent mode trade.trade_value, now - ts, aggression, trade.quantity⟩).isWhale
      = isWhaleEvent mode trade.trade_value := rfl
  have htr : (mkBubble s.mid now trade
      ⟨isWhaleEvent mode trade.trade_value, now - ts, aggression, trade.quantity⟩).trailFloats
      = (if isWhaleEvent mode trade.trade_value then some 18 else none) := rfl
  refine ⟨?_, rfl, ?_⟩
  · rw [hiw]
    show decide (mode = FocusMode.whales ∨ WHALE_THRESHOLD ≤ trade.trade_value) = true ↔
      (mode = FocusMode.whales ∨ WHALE_THRESHOLD ≤ trade.trade_value)
    rw [decide_eq_true_eq]
  · simp only [hiw, htr]

/-- Concrete instantiation of the amended C8 theorem: an all-trades-mode
spawn of trade value $200,000 creating a whale entity. -/
theorem whale_classification_witness :
    ((spawnFromFeed FocusMode.all (resetState 0) 0 0 0 ⟨9, 1, 1, 200000, true⟩).2 =
        some (mkBubble 0 0 ⟨9, 1, 1, 200000, true⟩ ⟨true, 0 - 0, 0, 1⟩)) ∧
    (((mkBubble 0 0 ⟨9, 1, 1, 200000, true⟩ ⟨true, 0 - 0, 0, 1⟩).isWhale = true ↔
        (FocusMode.all = FocusMode.whales ∨ WHALE_THRESHOLD ≤ (200000 : ℚ))) ∧
      (mkBubble 0 0 ⟨9, 1, 1, 200000, true⟩ ⟨true, 0 - 0, 0, 1⟩).hasRing =
        (mkBubble 0 0 ⟨9, 1, 1, 200000, true⟩ ⟨true, 0 - 0, 0, 1⟩).isWhale ∧
      (mkBubble 0 0 ⟨9, 1, 1, 200000, true⟩ ⟨true, 0 - 0, 0, 1⟩).trailFloats =
        (if (mkBubble 0 0 ⟨9, 1, 1, 200000, true⟩ ⟨true, 0 - 0, 0, 1⟩).isWhale
          then some (3 * 6) else none)) := by
  have hw : isWhaleEvent FocusMode.all 200000 = true := by
    rw [isWhaleEvent, decide_eq_true_eq]
    right
    norm_num [WHALE_THRESHOLD]
  have hseen : (9 : Int) ∉ (resetState 0).seen := by simp [resetState]
  have hage : ((0 : ℚ) - 0) < LIFESPAN_MS := by norm_num [LIFESPAN_MS]
  have hcre := addBubble_create (resetState 0) 0 ⟨9, 1, 1, 200000, true⟩
    ⟨isWhaleEvent FocusMode.all 200000, 0 - 0, 0, 1⟩ hseen rfl hage
  have h : (spawnFromFeed FocusMode.all (resetState 0) 0 0 0 ⟨9, 1, 1, 200000, true⟩).2 =
      some (mkBubble 0 0 ⟨9, 1, 1, 200000, true⟩ ⟨true, 0 - 0, 0, 1⟩) := by
    show (addBubble (resetState 0) 0 ⟨9, 1, 1, 200000, true⟩
      ⟨isWhaleEvent FocusMode.all 200000, 0 - 0, 0, 1⟩).2 =
      some (mkBubble 0 0 ⟨9, 1, 1, 200000, true⟩ ⟨true, 0 - 0, 0, 1⟩)
    rw [hcre, hw]
    rfl
  exact ⟨h, whale_classification FocusMode.all (resetState 0) 0 0 0
    ⟨9, 1, 1, 200000, true⟩ _ h⟩

/-- Claim C9: a missing snapshot or one with an empty bid or ask side yields
midPrice 0 (a total function, never an error); the price-to-position mapping
returns axis position 0 whenever the mid price is 0; and every entity
spawned while the mid price is 0 is anchored at axis position 0. -/
theorem midprice_zero_anchor :
    getMidPrice none = 0 ∧
    (∀ snap : OrderBookSnapshot, snap.bids = [] ∨ snap.asks = [] →
      getMidPrice (some snap) = 0) ∧
    (∀ price : ℚ, priceToY 0 price = 0) ∧
    (∀ (s : BubbleState) (now : ℚ) (trade : SpawnTrade) (opts : SpawnOpts)
      (b : Bubble), s.mid = 0 → (addBubble s now trade opts).2 = some b →
      b.posY = 0) := by
  refine ⟨rfl, ?_, ?_, ?_⟩
  · rintro snap (hside | hside) <;> simp [getMidPrice, hside]
  · intro price
    simp [priceToY]
  · intro s now trade opts b hmid hcreate
    obtain ⟨hbeq, -⟩ := addBubble_created _ _ _ _ _ hcreate
    subst hbeq
    show priceToY s.mid trade.price = 0
    rw [hmid]
    simp [priceToY]

/-- Concrete instantiation of the C9 theorem: an empty-bids snapshot, a probe
price of 5, and a spawn performed while the mid price ref is 0. -/
theorem midprice_zero_anchor_witness :
    (⟨none, [], [(1, 1)], none⟩ : OrderBookSnapshot).bids = [] ∧
    getMidPrice (some ⟨none, [], [(1, 1)], none⟩) = 0 ∧
    priceToY 0 5 = 0 ∧
    (resetState 0).mid = 0 ∧
    (addBubble (resetState 0) 0 ⟨3, 2, 1, 1, true⟩ ⟨false, 0, 0, 1⟩).2 =
      some (mkBubble 0 0 ⟨3, 2, 1, 1, true⟩ ⟨false, 0, 0, 1⟩) ∧
    (mkBubble 0 0 ⟨3, 2, 1, 1, true⟩ ⟨false, 0, 0, 1⟩).posY = 0 := by
  have hseen : (3 : Int) ∉ (resetState 0).seen := by simp [resetState]
  have hage : ((0 : ℚ)) < LIFESPAN_MS := by norm_num [LIFESPAN_MS]
  have hcre := addBubble_create (resetState 0) 0 ⟨3, 2, 1, 1, true⟩
    ⟨false, 0, 0, 1⟩ hseen rfl hage
  have hcreate : (addBubble (resetState 0) 0 ⟨3, 2, 1, 1, true⟩ ⟨false, 0, 0, 1⟩).2 =
      some (mkBubble 0 0 ⟨3, 2, 1, 1, true⟩ ⟨false, 0, 0, 1⟩) := by
    rw [hcre]
    rfl
  exact ⟨rfl, midprice_zero_anchor.2.1 ⟨none, [], [(1, 1)], none⟩ (Or.inl rfl),
    midprice_zero_anchor.2.2.1 5, rfl, hcreate,
    midprice_zero_anchor.2.2.2 (resetState 0) 0 ⟨3, 2, 1, 1, true⟩
      ⟨false, 0, 0, 1⟩ _ rfl hcreate⟩

end BubbleSpace

end Finnovate
